import Mathlib

/-!
Verification development for the P2P-Ontology concept-graph core
(`src/ConceptGraph.py`).

The Python source is shallowly embedded:

* `ConceptNode`, `ConceptEdge` and `ConceptGraph` become structures holding
  exactly the fields the Python objects hold.  `self.descriptors` is a Python
  `list` (the constructor does `list(descriptors)`), so it is a `List String`
  here; the enumeration order chosen by the Python `set` at construction time
  is the order of that list.
* The WordNet corpus (`nltk.corpus.wordnet`) is a read-only oracle; it is
  embedded as a `Lexicon` structure of pure lookup functions and every
  operation is parametrised by it.
* The `networkx.DiGraph` backing structure is embedded as `NxDiGraph`: a list
  of integer vertex keys, a list of directed edges between keys, and the
  per-vertex attribute dictionary written by `graph.add_node(id, **dict)`.
* Python exceptions are `Option PyErr` / `Except PyErr` results.  Because an
  exception escaping a method still leaves every in-place mutation performed
  before the raise, mutating methods return the state at raise time together
  with the error: `ConceptGraph → ... → ConceptGraph × Option PyErr`.
* Python `set` membership (`x in s`, `s.add(x)`) first matches the stored
  element's hash and then asks `stored == x`.  `ConceptNode.__hash__` is
  `hash(self.id_networkx)` and `ConceptEdge.__hash__` is
  `hash((source, target))`, which is what `pySetMemNode` / `pySetMemEdge`
  model.
* Containment of a Python value in an `nx.DiGraph` is a dict lookup against
  the integer keys.  `int.__eq__` with a `str` or `ConceptNode` argument
  yields `NotImplemented`, the reflected comparison does too (or compares
  identity), so cross-type `==` is `False`; `pyKeyEq` records exactly that.
-/

/-- Error kinds for the exceptions raised in `ConceptGraph.py`.  Names follow
the specification's error taxonomy; each constructor's comment quotes the
exception site in the code. -/
inductive PyErr where
  /-- "ConceptNode constructor: invalid argument type" (`valid_types` fails). -/
  | invalidArgumentType
  /-- "ConceptNode constructor: invalid argument" (`valid_args` returns False). -/
  | invalidArgument
  /-- "ConceptNode constructor: ... is not the name of a WordNet synset"
  (`wn.synset(name)` raised inside `valid_args`). -/
  | notASynsetName
  /-- "from_descriptor: ... not found in Wordnet" (`UnknownLabel`). -/
  | unknownLabel
  /-- "from_descriptor: ... has multiple meanings ..." (`AmbiguousLabel`). -/
  | ambiguousLabel
  /-- "valid_add_descriptor: ... not a synonym" (`NotSynonymous`). -/
  | notSynonymous
  /-- "valid_graph_node: new node already in graph" (`DuplicateLabel`). -/
  | duplicateLabel
  /-- "valid_graph_node: synonym of new node already in graph" (`DuplicateSense`). -/
  | duplicateSense
  /-- "valid_graph_edge: source node not in graph" (`NodeNotFound`). -/
  | nodeNotFoundSource
  /-- "valid_graph_edge: target node not in graph" (`NodeNotFound`). -/
  | nodeNotFoundTarget
  /-- "valid_graph_edge: the source is not a hypernym of the target" (`NotAHypernym`). -/
  | notAHypernym
  /-- "valid_graph_edge: the graph already contains a path between the source
  and the target" (`RedundantEdge`). -/
  | redundantEdge
  /-- "valid_graph_edge: the graph already contains a path between the target
  and the source" (`CycleDetected`). -/
  | cycleDetected
  /-- "add_edge: adding edge would create another root" (`MultipleRoots`). -/
  | multipleRoots
  /-- `networkx.NetworkXUnfeasible` escaping from
  `nx.topological_generations` when the backing graph has a cycle. -/
  | networkxUnfeasible
  /-- `IndexError` from `list(enumerate(...))[0]` on an empty generation list. -/
  | indexError
  /-- `AttributeError` (e.g. `list.add` does not exist, `NodeView` has no
  `synset_name`/`descriptors` attribute). -/
  | attributeError
  /-- "... not in current graph" raised by the composite operations
  (`add_descriptor_as_new_node`, `add_descriptor_to_node`). -/
  | nodeNotFound
deriving DecidableEq, Repr

/-- The WordNet oracle consumed by `ConceptGraph.py`, restricted to the four
lookups the code performs.  All senses are identified by their synset name. -/
structure Lexicon where
  /-- `wn.synsets(label)`, as a list of synset names. -/
  synsetsOf : String → List String
  /-- Does `wn.synset(name)` succeed (is `name` a synset name)? -/
  isSynsetName : String → Bool
  /-- `wn.synset(name).pos() == 'n'`. -/
  isNoun : String → Bool
  /-- `wn.synset(name).hypernym_paths()[0]`, mapped to synset names
  (the path ends with `name` itself). -/
  hypernymPath : String → List String

/-- `ConceptNode`: `id_networkx` from the global `siguiente_id` counter,
`descriptors = list(<the set passed in>)`, `synset_name`. -/
structure ConceptNode where
  id_networkx : Nat
  descriptors : List String
  synset_name : String
deriving DecidableEq, Repr

namespace ConceptNode

/-- `ConceptNode.__eq__`: equal iff `descriptors` (the lists) and
`synset_name` are equal; `id_networkx` does not participate. -/
def pyEq (a b : ConceptNode) : Bool :=
  a.descriptors == b.descriptors && a.synset_name == b.synset_name

/-- `ConceptNode.__hash__` is `hash(self.id_networkx)`; for the small
non-negative ints used as ids, `hash` is the identity. -/
def pyHash (n : ConceptNode) : Nat := n.id_networkx

/-- The `ConceptNode` constructor.  `ctr` is the global mutable
`siguiente_id`; the id is taken and the counter bumped before validation, so
a failing construction still consumes an id.  `descriptors` arrives here as
the list enumeration of the Python set argument.  Checks are in source
order: `valid_types` (emptiness; the type tests are vacuous in this typed
embedding), then `valid_args` wrapped in try/except (an invalid synset name
raises inside `wn.synset` and is reported as `notASynsetName`; a plain
`False` as `invalidArgument`). -/
def pyNew (L : Lexicon) (descriptors : List String) (name : String) (ctr : Nat) :
    Except PyErr ConceptNode × Nat :=
  let id := ctr
  let ctr1 := ctr + 1
  if descriptors.isEmpty then (.error .invalidArgumentType, ctr1)
  else if !(L.isSynsetName name) then (.error .notASynsetName, ctr1)
  else if !(L.isNoun name &&
      descriptors.all fun d => !(L.synsetsOf d).isEmpty && (L.synsetsOf d).contains name) then
    (.error .invalidArgument, ctr1)
  else (.ok ⟨id, descriptors, name⟩, ctr1)

/-- `ConceptNode.from_descriptor`: no synset for the label raises
`unknownLabel`; several synsets raise `ambiguousLabel` (payload: candidate
senses with synonym lists, not modelled); exactly one synset calls
`cls({descriptor}, name)`. -/
def from_descriptor (L : Lexicon) (d : String) (ctr : Nat) :
    Except PyErr ConceptNode × Nat :=
  match L.synsetsOf d with
  | [] => (.error .unknownLabel, ctr)
  | [name] => pyNew L [d] name ctr
  | _ :: _ :: _ => (.error .ambiguousLabel, ctr)

/-- `ConceptNode.valid_add_descriptor`: raises `notSynonymous` when
`wn.synset(self.synset_name)` is not among `wn.synsets(descriptor)`,
otherwise returns True. -/
def valid_add_descriptor (L : Lexicon) (n : ConceptNode) (d : String) : Option PyErr :=
  if !(L.synsetsOf d).contains n.synset_name then some .notSynonymous else none

/-- `ConceptNode.add_descriptor`: no-op when the descriptor is already
present; raises `notSynonymous` via `valid_add_descriptor` otherwise when
the label is not a synonym; otherwise executes `self.descriptors.add(...)`
— but `self.descriptors` is a `list` (see the comment in the source), which
has no `add` method, so this branch raises `AttributeError` before any
mutation. -/
def add_descriptor (L : Lexicon) (n : ConceptNode) (d : String) :
    ConceptNode × Option PyErr :=
  if n.descriptors.contains d then (n, none)
  else
    match valid_add_descriptor L n d with
    | some e => (n, some e)
    | none => (n, some .attributeError)

end ConceptNode

/-- A Python value used as a dictionary/set key in this program. -/
inductive PyKey where
  | int : Nat → PyKey
  | str : String → PyKey
  | node : ConceptNode → PyKey

/-- Python `==` between key values.  Same-type comparisons use the type's
`__eq__` (`ConceptNode.__eq__` is value equality).  Cross-type comparisons
between `int`, `str` and `ConceptNode` all evaluate to `False`:
both `__eq__` sides return `NotImplemented` (or compare object identity,
which distinct objects fail), so `==` falls back to `False`. -/
def pyKeyEq : PyKey → PyKey → Bool
  | .int a, .int b => a == b
  | .str a, .str b => a == b
  | .node a, .node b => a.pyEq b
  | _, _ => false

/-- Membership of `e` in a Python `set` of `ConceptNode`s: some stored
element has the same hash (`id_networkx`) and compares `==` (value
equality). -/
def pySetMemNode (s : List ConceptNode) (e : ConceptNode) : Bool :=
  s.any fun x => x.pyHash == e.pyHash && x.pyEq e

/-- Python `set.add` for `ConceptNode`s: insert unless already a member. -/
def pySetInsertNode (s : List ConceptNode) (e : ConceptNode) : List ConceptNode :=
  if pySetMemNode s e then s else s ++ [e]

/-- `ConceptEdge`: `source`, `target`, optional `label` (`info=None`). -/
structure ConceptEdge where
  source : ConceptNode
  target : ConceptNode
  label : Option String
deriving DecidableEq, Repr

namespace ConceptEdge

/-- `ConceptEdge.__eq__` as written in the source.  Python's conditional
expression has lower precedence than `and`, so the body parses as
`(source == ∧ target == ∧ label ==) if self.label is not None else True`:
whenever the left operand's `label` is `None` the method returns `True`
outright, ignoring the endpoints. -/
def pyEq (a b : ConceptEdge) : Bool :=
  match a.label with
  | none => true
  | some _ =>
    a.source.pyEq b.source && a.target.pyEq b.target && a.label == b.label

/-- `ConceptEdge.__hash__` is `hash((source, target))`; the node hashes are
their ids. -/
def pyHash (e : ConceptEdge) : Nat × Nat :=
  (e.source.id_networkx, e.target.id_networkx)

end ConceptEdge

/-- Membership of `e` in a Python `set` of `ConceptEdge`s (hash, then the
stored element's `__eq__`). -/
def pySetMemEdge (s : List ConceptEdge) (e : ConceptEdge) : Bool :=
  s.any fun x => x.pyHash == e.pyHash && x.pyEq e

/-- Python `set.add` for `ConceptEdge`s. -/
def pySetInsertEdge (s : List ConceptEdge) (e : ConceptEdge) : List ConceptEdge :=
  if pySetMemEdge s e then s else s ++ [e]

/-- The `networkx.DiGraph` backing structure: integer vertex keys in
insertion order, directed edges between keys (`nx` stores at most one copy
of an edge), and the node-attribute dictionaries, which for this program
hold the `**new_node.__dict__` snapshot written by
`ConceptGraph.add_node`. -/
structure NxDiGraph where
  verts : List Nat
  edges : List (Nat × Nat)
  attrs : List (Nat × ConceptNode)
deriving DecidableEq, Repr

namespace NxDiGraph

/-- The empty `nx.DiGraph()`. -/
def empty : NxDiGraph := ⟨[], [], []⟩

/-- Replace-or-append on the attribute dictionary. -/
def setAttr (l : List (Nat × ConceptNode)) (i : Nat) (a : ConceptNode) :
    List (Nat × ConceptNode) :=
  if l.any (fun p => p.1 == i) then
    l.map fun p => if p.1 == i then (i, a) else p
  else l ++ [(i, a)]

/-- `graph.add_node(i, **attrs)`: insert the key if new, set its attributes. -/
def add_node_attr (g : NxDiGraph) (i : Nat) (a : ConceptNode) : NxDiGraph :=
  { verts := if g.verts.contains i then g.verts else g.verts ++ [i]
    edges := g.edges
    attrs := setAttr g.attrs i a }

/-- `graph.add_edge(u, v)`: missing endpoints are created (with empty
attribute dicts), the edge is stored unless already present. -/
def add_edge (g : NxDiGraph) (u v : Nat) : NxDiGraph :=
  let vs0 := if g.verts.contains u then g.verts else g.verts ++ [u]
  let vs1 := if vs0.contains v then vs0 else vs0 ++ [v]
  { verts := vs1
    edges := if g.edges.contains (u, v) then g.edges else g.edges ++ [(u, v)]
    attrs := g.attrs }

/-- `graph.remove_edge(u, v)` (the rollback in `ConceptGraph.add_edge`);
vertices and attributes stay. -/
def remove_edge (g : NxDiGraph) (u v : Nat) : NxDiGraph :=
  { g with edges := g.edges.filter fun e => e != (u, v) }

/-- Membership of a Python key in the DiGraph's node dict (`x in graph`):
some stored integer key compares `==` to the query.  A `str` or
`ConceptNode` query therefore never matches (cross-type `==` is `False`). -/
def memKey (g : NxDiGraph) (k : PyKey) : Bool :=
  g.verts.any fun i => pyKeyEq (.int i) k

/-- Bounded search for a directed path of length between 1 and `fuel` from
`u` to `v` using the edge list `es`.  This is the reachability engine behind
the `nx.algorithms.dag.ancestors` calls. -/
def reachFuel (es : List (Nat × Nat)) : Nat → Nat → Nat → Bool
  | 0, _, _ => false
  | fuel + 1, u, v =>
    es.any fun e => e.1 == u && (e.2 == v || reachFuel es fuel e.2 v)

/-- Is there a directed path of length at least 1 from `u` to `v`?  A fuel
of `es.length` suffices: a shortest path repeats no source vertex, hence no
edge. -/
def reachesB (g : NxDiGraph) (u v : Nat) : Bool :=
  reachFuel g.edges g.edges.length u v

/-- `nx.algorithms.dag.ancestors(g, v)`: all nodes other than `v` with a
path to `v`. -/
def ancestorList (g : NxDiGraph) (v : Nat) : List Nat :=
  g.verts.filter fun u => u != v && reachesB g u v

/-- One Kahn layer: the not-yet-emitted vertices all of whose in-edges come
from already-emitted vertices. -/
def kahnStep (g : NxDiGraph) (done : List Nat) : List Nat :=
  (g.verts.filter fun v => !(done.contains v)).filter fun v =>
    (g.edges.filter fun e => e.2 == v && !(done.contains e.1)).isEmpty

/-- Layered Kahn elimination; errors (as `nx.NetworkXUnfeasible` does) when
vertices remain but no layer can be emitted, i.e. when the graph has a
cycle. -/
def kahnAux (g : NxDiGraph) : List Nat → Nat → Except Unit (List (List Nat))
  | done, 0 => if g.verts.all (fun v => done.contains v) then .ok [] else .error ()
  | done, fuel + 1 =>
    if g.verts.all (fun v => done.contains v) then .ok []
    else
      let layer := kahnStep g done
      if layer.isEmpty then .error ()
      else
        match kahnAux g (done ++ layer) fuel with
        | .error e => .error e
        | .ok rest => .ok (layer :: rest)

/-- `list(nx.topological_generations(g))`: the topological generations of
the DiGraph, generation 0 being the zero-in-degree vertices; consuming the
generator of a cyclic graph raises `NetworkXUnfeasible`. -/
def topoGenerations (g : NxDiGraph) : Except Unit (List (List Nat)) :=
  kahnAux g [] g.verts.length

/-- The zero-in-degree ("root") vertices. -/
def rootList (g : NxDiGraph) : List Nat :=
  g.verts.filter fun v => (g.edges.filter fun e => e.2 == v).isEmpty

end NxDiGraph

/-- `ConceptGraph`: the node set, the edge set and the wrapped
`nx.DiGraph`. -/
structure ConceptGraph where
  nodes : List ConceptNode
  edges : List ConceptEdge
  graph : NxDiGraph
deriving DecidableEq, Repr

namespace ConceptGraph

/-- `ConceptGraph.__contains__` for a `ConceptNode` argument:
`elem in self.nodes and elem.id_networkx in self.graph`. -/
def containsNode (s : ConceptGraph) (n : ConceptNode) : Bool :=
  pySetMemNode s.nodes n && s.graph.verts.contains n.id_networkx

/-- `ConceptGraph.valid_graph_node`.  The two duplicate checks test
`descriptor in self.graph` and `new_node.synset_name in self.graph` — i.e.
string membership in the integer-keyed backing DiGraph (the source marks
these lines "NEEDS `__contains__`"). -/
def valid_graph_node (s : ConceptGraph) (n : ConceptNode) : Option PyErr :=
  if n.descriptors.any (fun d => s.graph.memKey (.str d)) then some .duplicateLabel
  else if s.graph.memKey (.str n.synset_name) then some .duplicateSense
  else none

/-- `ConceptGraph.add_node`: on validation success, add the vertex with the
node's `__dict__` as attributes and add the node to `self.nodes`. -/
def add_node (s : ConceptGraph) (n : ConceptNode) : ConceptGraph × Option PyErr :=
  match valid_graph_node s n with
  | some e => (s, some e)
  | none =>
    ({ s with
        graph := s.graph.add_node_attr n.id_networkx n
        nodes := pySetInsertNode s.nodes n }, none)

/-- `ConceptGraph.valid_graph_edge`: endpoint membership (via
`ConceptGraph.__contains__`), then the WordNet hypernym-path test, then the
two `nx.ancestors` reachability tests (transitive reduction, acyclicity). -/
def valid_graph_edge (L : Lexicon) (s : ConceptGraph) (e : ConceptEdge) : Option PyErr :=
  if s.containsNode e.source = false then some .nodeNotFoundSource
  else if s.containsNode e.target = false then some .nodeNotFoundTarget
  else if (L.hypernymPath e.target.synset_name).contains e.source.synset_name = false then
    some .notAHypernym
  else if (s.graph.ancestorList e.target.id_networkx).contains e.source.id_networkx then
    some .redundantEdge
  else if (s.graph.ancestorList e.source.id_networkx).contains e.target.id_networkx then
    some .cycleDetected
  else none

/-- `ConceptGraph.add_edge`: after validation the edge is inserted into the
backing DiGraph; then the first topological generation is recomputed — if
consuming the generator raises (cycle) or indexing raises, that exception
escapes with the provisional edge still in place; if the generation has more
than one vertex the insertion is rolled back and `multipleRoots` raised;
otherwise the edge is committed to `self.edges`. -/
def add_edge (L : Lexicon) (s : ConceptGraph) (e : ConceptEdge) :
    ConceptGraph × Option PyErr :=
  match valid_graph_edge L s e with
  | some err => (s, some err)
  | none =>
    let g1 := s.graph.add_edge e.source.id_networkx e.target.id_networkx
    match g1.topoGenerations with
    | .error _ => ({ s with graph := g1 }, some .networkxUnfeasible)
    | .ok [] => ({ s with graph := g1 }, some .indexError)
    | .ok (gen0 :: _) =>
      if gen0.length > 1 then
        ({ s with graph := g1.remove_edge e.source.id_networkx e.target.id_networkx },
          some .multipleRoots)
      else
        ({ s with graph := g1, edges := pySetInsertEdge s.edges e }, none)

/-- `ConceptGraph.add_descriptor_as_new_node`.  The membership guard uses
`self` (the `ConceptGraph`); the `type(...) != str and not isinstance(...)`
guard is vacuous here.  `from_descriptor` failures are printed and
swallowed (the method returns normally with no mutation); failures of
`add_node`/`add_edge` happen in the `else:` block, outside the `try`, and
propagate — with any mutation they left behind. -/
def add_descriptor_as_new_node (L : Lexicon) (s : ConceptGraph) (d : String)
    (parent : ConceptNode) (ctr : Nat) : ConceptGraph × Nat × Option PyErr :=
  if s.containsNode parent = false then (s, ctr, some .nodeNotFound)
  else
    match ConceptNode.from_descriptor L d ctr with
    | (.error _, ctr1) => (s, ctr1, none)
    | (.ok n, ctr1) =>
      let r1 := add_node s n
      match r1.2 with
      | some e1 => (r1.1, ctr1, some e1)
      | none =>
        let r2 := add_edge L r1.1 ⟨parent, n, none⟩
        (r2.1, ctr1, r2.2)

/-- `ConceptGraph.add_descriptor_to_node`.  The guard is
`target_node not in self.graph`: membership of the `ConceptNode` object in
the integer-keyed backing DiGraph, which no node object ever passes — so
the guard raises for every input.  (Were it passed: `add_descriptor`'s
exceptions are printed and swallowed and never mutate the node, and the
subsequent `self.graph.nodes[id]['descriptors'].add(...)` calls `add` on a
stored `list` and raises `AttributeError`.) -/
def add_descriptor_to_node (L : Lexicon) (s : ConceptGraph) (d : String)
    (n : ConceptNode) : ConceptGraph × Option PyErr :=
  if s.graph.memKey (.node n) then
    let _ := ConceptNode.add_descriptor L n d
    (s, some .attributeError)
  else (s, some .nodeNotFound)

/-- An argument to `ConceptGraph.__contains__`. -/
inductive ContainsArg where
  | str : String → ContainsArg
  | node : ConceptNode → ContainsArg
  | edge : ConceptEdge → ContainsArg

/-- `ConceptGraph.__contains__`.  For a string the code splits on `'.'` and
then calls `self.graph.nodes.synset_name()` resp.
`self.graph.nodes.descriptors()`; `networkx`'s `NodeView` has no such
attributes, so both branches raise `AttributeError`.  Node and edge
arguments are tested against the Python sets and the backing DiGraph. -/
def containsOp (s : ConceptGraph) : ContainsArg → Except PyErr Bool
  | .str v =>
    if (v.splitOn ".").length == 3 then .error .attributeError
    else .error .attributeError
  | .node n => .ok (s.containsNode n)
  | .edge e =>
    .ok (pySetMemEdge s.edges e &&
      s.graph.edges.contains (e.source.id_networkx, e.target.id_networkx))

end ConceptGraph

/-!  ## The constructor's shared mutable default arguments

`ConceptGraph.__init__(self, nodes=set(), edges=set(), graph=nx.DiGraph())`
evaluates its three default expressions once, when the `class` statement is
executed; every call `ConceptGraph()` then binds the same three objects.  A
`ConceptGraph` value is therefore three references into a store of mutable
cells, and the zero-argument constructor always returns the references of
the module-level default objects (cell index 0 of each heap). -/

/-- A `ConceptGraph` object: references to its `nodes` set, `edges` set and
backing DiGraph. -/
structure ConceptGraphObj where
  nodesRef : Nat
  edgesRef : Nat
  graphRef : Nat
deriving DecidableEq, Repr

/-- The mutable cells reachable from `ConceptGraph` objects. -/
structure Store where
  nodeCells : Nat → List ConceptNode
  edgeCells : Nat → List ConceptEdge
  graphCells : Nat → NxDiGraph

/-- Point update of a heap. -/
def setCell {α : Type} (f : Nat → α) (i : Nat) (a : α) : Nat → α :=
  fun j => if j = i then a else f j

/-- The store at interpreter start-up: the three default cells (index 0)
hold the freshly evaluated `set()`, `set()`, `nx.DiGraph()`. -/
def Store.initial : Store :=
  ⟨fun _ => [], fun _ => [], fun _ => NxDiGraph.empty⟩

/-- `ConceptGraph()` with no arguments: the default objects, evaluated once
at class-definition time, are bound — every such call yields the same three
references. -/
def ConceptGraph.pyInitDefault : ConceptGraphObj := ⟨0, 0, 0⟩

/-- The pure state a `ConceptGraph` object currently denotes. -/
def ConceptGraphObj.deref (g : ConceptGraphObj) (σ : Store) : ConceptGraph :=
  ⟨σ.nodeCells g.nodesRef, σ.edgeCells g.edgesRef, σ.graphCells g.graphRef⟩

/-- Write a pure state back through the object's references. -/
def ConceptGraphObj.writeBack (g : ConceptGraphObj) (s : ConceptGraph) (σ : Store) :
    Store :=
  ⟨setCell σ.nodeCells g.nodesRef s.nodes,
   setCell σ.edgeCells g.edgesRef s.edges,
   setCell σ.graphCells g.graphRef s.graph⟩

/-- `g.add_node(n)` acting on the store. -/
def ConceptGraphObj.add_node (g : ConceptGraphObj) (n : ConceptNode) (σ : Store) :
    Store × Option PyErr :=
  let r := ConceptGraph.add_node (g.deref σ) n
  (g.writeBack r.1 σ, r.2)

/-- `elem in g` acting on the store. -/
def ConceptGraphObj.containsOp (g : ConceptGraphObj) (a : ConceptGraph.ContainsArg)
    (σ : Store) : Except PyErr Bool :=
  ConceptGraph.containsOp (g.deref σ) a

/-!  ## A concrete WordNet fragment and concrete states

A small deterministic lexicon realising the spec's scenarios (entity /
animal / dog, plus `creature` as a synonym of `animal.n.01`, `plant`, and
`rock` whose hypernym path avoids `entity.n.01`). -/

/-- Concrete lexicon used by the witnesses and counterexamples. -/
def wnFix : Lexicon where
  synsetsOf l :=
    if l = "entity" then ["entity.n.01"]
    else if l = "animal" then ["animal.n.01"]
    else if l = "creature" then ["animal.n.01"]
    else if l = "dog" then ["dog.n.01"]
    else if l = "plant" then ["plant.n.01"]
    else if l = "rock" then ["rock.n.01"]
    else []
  isSynsetName n :=
    n = "entity.n.01" || n = "animal.n.01" || n = "dog.n.01" ||
      n = "plant.n.01" || n = "rock.n.01" || n = "object.n.01"
  isNoun n :=
    n = "entity.n.01" || n = "animal.n.01" || n = "dog.n.01" ||
      n = "plant.n.01" || n = "rock.n.01" || n = "object.n.01"
  hypernymPath n :=
    if n = "entity.n.01" then ["entity.n.01"]
    else if n = "animal.n.01" then ["entity.n.01", "animal.n.01"]
    else if n = "dog.n.01" then ["entity.n.01", "animal.n.01", "dog.n.01"]
    else if n = "plant.n.01" then ["entity.n.01", "plant.n.01"]
    else if n = "rock.n.01" then ["object.n.01", "rock.n.01"]
    else []

/-- `ConceptNode({"entity"}, "entity.n.01")` with id 1. -/
def nodeEntity : ConceptNode := ⟨1, ["entity"], "entity.n.01"⟩

/-- `ConceptNode({"animal"}, "animal.n.01")` with id 2. -/
def nodeAnimal : ConceptNode := ⟨2, ["animal"], "animal.n.01"⟩

/-- `ConceptNode({"dog"}, "dog.n.01")` with id 3. -/
def nodeDog : ConceptNode := ⟨3, ["dog"], "dog.n.01"⟩

/-- `ConceptNode({"plant"}, "plant.n.01")` with id 4. -/
def nodePlant : ConceptNode := ⟨4, ["plant"], "plant.n.01"⟩

/-- A second `ConceptNode({"dog"}, "dog.n.01")`, value-equal to `nodeDog`
but allocated later (id 9). -/
def nodeDogClone : ConceptNode := ⟨9, ["dog"], "dog.n.01"⟩

/-- The empty `ConceptGraph` state (fresh `set()`s and `nx.DiGraph()`). -/
def emptyCG : ConceptGraph := ⟨[], [], NxDiGraph.empty⟩

/-- The graph after `add_node(nodeEntity)` on the empty graph. -/
def cgE : ConceptGraph := (ConceptGraph.add_node emptyCG nodeEntity).1

/-- The graph after adding `nodeEntity` then `nodeAnimal`. -/
def cgEA : ConceptGraph := (ConceptGraph.add_node cgE nodeAnimal).1

/-- The entity→animal relation (`info=None`). -/
def edgeEA : ConceptEdge := ⟨nodeEntity, nodeAnimal, none⟩

/-- The graph after additionally committing the entity→animal edge. -/
def cgEAe : ConceptGraph := (ConceptGraph.add_edge wnFix cgEA edgeEA).1

/-!  ## Reachability theory for the backing DiGraph

`nx.algorithms.dag.ancestors` is embedded through the bounded search
`NxDiGraph.reachFuel`; this section relates that Boolean to the transitive
closure of the edge relation and proves the two graph-theoretic facts the
claims need: a fuel of `es.length` is complete for reachability, and
inserting an edge `s → t` with no existing path `t →* s` (and `s ≠ t`)
preserves acyclicity. -/

/-- The edge relation of an edge list. -/
def stepRel (es : List (Nat × Nat)) (a b : Nat) : Prop := (a, b) ∈ es

/-- `l` is the list of edge sources along a directed path that starts at
`u` and ends with an edge into `v` (so the path has `l.length ≥ 1`
edges). -/
def IsPath (es : List (Nat × Nat)) (u v : Nat) (l : List Nat) : Prop :=
  l.head? = some u ∧ List.Chain' (stepRel es) l ∧
    ∃ w, l.getLast? = some w ∧ stepRel es w v

/-- Acyclicity of the backing digraph: no vertex reaches itself by a
nonempty directed path. -/
def NxDiGraph.Acyclic (g : NxDiGraph) : Prop :=
  ∀ v, ¬ Relation.TransGen (stepRel g.edges) v v

theorem reachFuel_mono {es : List (Nat × Nat)} :
    ∀ {f f' u v : Nat}, f ≤ f' → NxDiGraph.reachFuel es f u v = true →
      NxDiGraph.reachFuel es f' u v = true := by
  intro f
  induction f with
  | zero => intro f' u v _ h; simp [NxDiGraph.reachFuel] at h
  | succ f ih =>
    intro f' u v hle h
    cases f' with
    | zero => exact absurd hle (Nat.not_succ_le_zero f)
    | succ f' =>
      simp only [NxDiGraph.reachFuel, List.any_eq_true] at h ⊢
      obtain ⟨e, he, hcond⟩ := h
      refine ⟨e, he, ?_⟩
      simp only [Bool.and_eq_true, Bool.or_eq_true] at hcond ⊢
      refine ⟨hcond.1, ?_⟩
      rcases hcond.2 with h1 | h2
      · exact Or.inl h1
      · exact Or.inr (ih (Nat.le_of_succ_le_succ hle) h2)

theorem transGen_exists_isPath {es : List (Nat × Nat)} {u v : Nat}
    (h : Relation.TransGen (stepRel es) u v) : ∃ l, IsPath es u v l := by
  induction h with
  | single hb => exact ⟨[u], rfl, List.chain'_singleton u, u, rfl, hb⟩
  | @tail m c _ hbc ih =>
    obtain ⟨l, hh, hc, w, hlast, hwb⟩ := ih
    cases l with
    | nil => simp at hh
    | cons a t =>
      refine ⟨(a :: t) ++ [m], ?_, ?_, m, ?_, hbc⟩
      · simpa using hh
      · refine List.chain'_append.mpr ⟨hc, List.chain'_singleton m, ?_⟩
        intro x hx y hy
        have hx2 : w = x := by rw [hlast] at hx; simpa using hx
        have hy2 : m = y := by simpa using hy
        rw [← hx2, ← hy2]; exact hwb
      · rw [List.getLast?_append_cons]; rfl

theorem reachFuel_step {es : List (Nat × Nat)} {f u w v : Nat}
    (hm : (u, w) ∈ es) (h : NxDiGraph.reachFuel es f w v = true) :
    NxDiGraph.reachFuel es (f + 1) u v = true := by
  have he : NxDiGraph.reachFuel es (f + 1) u v =
      es.any fun e => e.1 == u && (e.2 == v || NxDiGraph.reachFuel es f e.2 v) := rfl
  rw [he, List.any_eq_true]
  exact ⟨(u, w), hm, by simp [h]⟩

theorem reachFuel_one {es : List (Nat × Nat)} {u v : Nat} (hm : (u, v) ∈ es) :
    NxDiGraph.reachFuel es 1 u v = true := by
  have he : NxDiGraph.reachFuel es 1 u v =
      es.any fun e => e.1 == u && (e.2 == v || NxDiGraph.reachFuel es 0 e.2 v) := rfl
  rw [he, List.any_eq_true]
  exact ⟨(u, v), hm, by simp⟩

theorem isPath_reachFuel {es : List (Nat × Nat)} :
    ∀ {l : List Nat} {u v : Nat}, IsPath es u v l →
      NxDiGraph.reachFuel es l.length u v = true := by
  intro l
  induction l with
  | nil => intro u v h; simp [IsPath] at h
  | cons a t ih =>
    intro u v h
    obtain ⟨hh, hc, w, hlast, hwv⟩ := h
    have ha : a = u := by simpa using hh
    subst ha
    cases t with
    | nil =>
      have hw : w = a := by simpa using hlast.symm
      subst hw
      exact reachFuel_one hwv
    | cons b t2 =>
      obtain ⟨hab, hc2⟩ := List.chain'_cons.mp hc
      have hlast2 : (b :: t2).getLast? = some w := by
        rw [List.getLast?_cons_cons] at hlast; exact hlast
      have ih2 := ih ⟨rfl, hc2, w, hlast2, hwv⟩
      exact reachFuel_step hab ih2

theorem isPath_src_subset {es : List (Nat × Nat)} :
    ∀ {l : List Nat} {u v : Nat}, IsPath es u v l →
      ∀ x ∈ l, x ∈ es.map Prod.fst := by
  intro l
  induction l with
  | nil => intro u v _ x hx; simp at hx
  | cons a t ih =>
    intro u v h x hx
    obtain ⟨hh, hc, w, hlast, hwv⟩ := h
    cases t with
    | nil =>
      have hw : w = a := by simpa using hlast.symm
      have hx2 : x = a := by simpa using hx
      subst hx2; rw [← hw]
      exact List.mem_map.mpr ⟨(w, v), hwv, rfl⟩
    | cons b t2 =>
      rcases List.mem_cons.mp hx with rfl | hx2
      · exact List.mem_map.mpr ⟨(x, b), (List.chain'_cons.mp hc).1, rfl⟩
      · refine ih ⟨rfl, (List.chain'_cons.mp hc).2, w, ?_, hwv⟩ x hx2
        rw [List.getLast?_cons_cons] at hlast; exact hlast

theorem exists_dup_split {α : Type} [DecidableEq α] :
    ∀ {l : List α}, ¬ l.Nodup →
      ∃ (x : α) (a b c : List α), l = a ++ x :: (b ++ x :: c) := by
  intro l
  induction l with
  | nil => intro h; exact absurd List.nodup_nil h
  | cons y t ih =>
    intro h
    by_cases hy : y ∈ t
    · obtain ⟨b, c, rfl⟩ := List.append_of_mem hy
      exact ⟨y, [], b, c, rfl⟩
    · have ht : ¬ t.Nodup := fun hnd => h (List.nodup_cons.mpr ⟨hy, hnd⟩)
      obtain ⟨x, a, b, c, rfl⟩ := ih ht
      exact ⟨x, y :: a, b, c, rfl⟩

theorem isPath_drop_dup {es : List (Nat × Nat)} {u v x : Nat} {a b c : List Nat}
    (h : IsPath es u v (a ++ x :: (b ++ x :: c))) : IsPath es u v (a ++ x :: c) := by
  obtain ⟨hh, hc, w, hlast, hwv⟩ := h
  refine ⟨?_, ?_, w, ?_, hwv⟩
  · cases a with
    | nil => simpa using hh
    | cons p q => simpa using hh
  · have hc2 : List.Chain' (stepRel es) (a ++ ((x :: b) ++ (x :: c))) := by
      simpa using hc
    obtain ⟨hca, hcbc, hlink⟩ := List.chain'_append.mp hc2
    obtain ⟨_, hcc, _⟩ := List.chain'_append.mp hcbc
    refine List.chain'_append.mpr ⟨hca, hcc, ?_⟩
    intro p hp q hq
    have hq2 : x = q := by simpa using hq
    rw [← hq2]
    exact hlink p hp x (by simp)
  · have h1 : (a ++ x :: (b ++ x :: c)).getLast? = (x :: c).getLast? := by
      have : a ++ x :: (b ++ x :: c) = (a ++ x :: b) ++ (x :: c) := by simp
      rw [this, List.getLast?_append_cons]
    have h2 : (a ++ x :: c).getLast? = (x :: c).getLast? := List.getLast?_append_cons a x c
    rw [h2, ← h1]; exact hlast

theorem isPath_nodup {es : List (Nat × Nat)} :
    ∀ (n : Nat) (l : List Nat) (u v : Nat), l.length ≤ n → IsPath es u v l →
      ∃ l2, IsPath es u v l2 ∧ l2.Nodup := by
  intro n
  induction n with
  | zero =>
    intro l u v hlen h
    cases l with
    | nil => simp [IsPath] at h
    | cons a t => simp at hlen
  | succ n ih =>
    intro l u v hlen h
    by_cases hnd : l.Nodup
    · exact ⟨l, h, hnd⟩
    · obtain ⟨x, a, b, c, rfl⟩ := exists_dup_split hnd
      refine ih (a ++ x :: c) u v ?_ (isPath_drop_dup h)
      simp only [List.length_append, List.length_cons] at hlen ⊢
      omega

theorem nodup_length_le {α : Type} [DecidableEq α] {l m : List α}
    (hnd : l.Nodup) (hsub : ∀ x ∈ l, x ∈ m) : l.length ≤ m.length :=
  calc l.length = l.toFinset.card := (List.toFinset_card_of_nodup hnd).symm
    _ ≤ m.toFinset.card := Finset.card_le_card
        (fun x hx => List.mem_toFinset.mpr (hsub x (List.mem_toFinset.mp hx)))
    _ ≤ m.length := List.toFinset_card_le m

/-- Completeness of the fuelled search: any transitive-closure step is found
with fuel `es.length`. -/
theorem reach_complete {es : List (Nat × Nat)} {u v : Nat}
    (h : Relation.TransGen (stepRel es) u v) :
    NxDiGraph.reachFuel es es.length u v = true := by
  obtain ⟨l, hl⟩ := transGen_exists_isPath h
  obtain ⟨l2, hl2, hnd⟩ := isPath_nodup l.length l u v le_rfl hl
  have hlen : l2.length ≤ es.length := by
    have := nodup_length_le hnd (isPath_src_subset hl2)
    simpa using this
  exact reachFuel_mono hlen (isPath_reachFuel hl2)

theorem reachFuel_of_mem {es : List (Nat × Nat)} {u v : Nat} (h : (u, v) ∈ es) :
    NxDiGraph.reachFuel es es.length u v = true := by
  cases es with
  | nil => simp at h
  | cons e t =>
    simp only [List.length_cons, NxDiGraph.reachFuel, List.any_eq_true]
    exact ⟨(u, v), h, by simp⟩

theorem rtg_split_new_edge {r : Nat → Nat → Prop} {s t : Nat}
    (hts : ¬ Relation.ReflTransGen r t s) :
    ∀ {v w : Nat},
      Relation.ReflTransGen (fun a b => r a b ∨ (a = s ∧ b = t)) v w →
      Relation.ReflTransGen r v w ∨
        (Relation.ReflTransGen r v s ∧ Relation.ReflTransGen r t w) := by
  intro v w h
  induction h with
  | refl => exact Or.inl Relation.ReflTransGen.refl
  | tail _ hxw ih =>
    rcases ih with hL | ⟨hvs, htx⟩
    · rcases hxw with hr | ⟨rfl, rfl⟩
      · exact Or.inl (hL.tail hr)
      · exact Or.inr ⟨hL, Relation.ReflTransGen.refl⟩
    · rcases hxw with hr | ⟨rfl, rfl⟩
      · exact Or.inr ⟨hvs, htx.tail hr⟩
      · exact absurd htx hts

/-- Inserting the edge `(s, t)` into an acyclic edge list keeps it acyclic
provided there is no path `t →* s` (in particular `t ≠ s`). -/
theorem acyclic_insert {es : List (Nat × Nat)} {s t : Nat}
    (hacyc : ∀ v, ¬ Relation.TransGen (stepRel es) v v)
    (hts : ¬ Relation.ReflTransGen (stepRel es) t s) :
    ∀ v, ¬ Relation.TransGen (stepRel (es ++ [(s, t)])) v v := by
  intro v hv
  have hv2 : Relation.TransGen (fun a b => stepRel es a b ∨ (a = s ∧ b = t)) v v := by
    refine hv.mono ?_
    intro a b hab
    rcases List.mem_append.mp hab with h1 | h2
    · exact Or.inl h1
    · have : (a, b) = (s, t) := by simpa using h2
      exact Or.inr ⟨congrArg Prod.fst this, congrArg Prod.snd this⟩
  obtain ⟨x, hvx, hxv⟩ := Relation.TransGen.head'_iff.mp hv2
  rcases rtg_split_new_edge hts hxv with hL | ⟨hxs, htv⟩
  · rcases hvx with hr | ⟨rfl, rfl⟩
    · exact hacyc v (Relation.TransGen.head' hr hL)
    · exact hts hL
  · rcases hvx with hr | ⟨rfl, rfl⟩
    · exact hts ((htv.tail hr).trans hxs)
    · exact hts hxs

theorem acyclic_congr {g h : NxDiGraph} (heq : g.edges = h.edges)
    (ha : g.Acyclic) : h.Acyclic := by
  intro v hv
  apply ha v
  rwa [heq]

theorem acyclic_of_edges_nil {g : NxDiGraph} (h : g.edges = []) : g.Acyclic := by
  intro v hv
  rw [h] at hv
  obtain ⟨x, hvx, _⟩ := Relation.TransGen.head'_iff.mp hv
  simp [stepRel] at hvx

/-!  ## Facts about the embedded operations -/

theorem contains_true_of_mem {α : Type} [BEq α] [LawfulBEq α] {l : List α} {a : α}
    (h : a ∈ l) : l.contains a = true := by
  simpa using h

theorem mem_of_contains_true {α : Type} [BEq α] [LawfulBEq α] {l : List α} {a : α}
    (h : l.contains a = true) : a ∈ l := by
  simpa using h

/-- A vertex carrying a self-loop is never emitted by the layered Kahn
elimination, so the elimination never finishes. -/
theorem kahnAux_ne_ok_of_selfloop {g : NxDiGraph} {x : Nat}
    (hv : x ∈ g.verts) (he : (x, x) ∈ g.edges) :
    ∀ (fuel : Nat) (done : List Nat), x ∉ done →
      ∀ gens, NxDiGraph.kahnAux g done fuel ≠ .ok gens := by
  intro fuel
  induction fuel with
  | zero =>
    intro done hx gens
    simp only [NxDiGraph.kahnAux]
    split
    · next hall =>
      exfalso
      exact hx (mem_of_contains_true (List.all_eq_true.mp hall x hv))
    · simp
  | succ fuel ih =>
    intro done hx gens
    simp only [NxDiGraph.kahnAux]
    split
    · next hall =>
      exfalso
      exact hx (mem_of_contains_true (List.all_eq_true.mp hall x hv))
    · have hxlayer : x ∉ NxDiGraph.kahnStep g done := by
        intro hmem
        obtain ⟨h1, h2⟩ := List.mem_filter.mp hmem
        have hmem2 : (x, x) ∈ g.edges.filter fun e => e.2 == x && !(done.contains e.1) := by
          refine List.mem_filter.mpr ⟨he, ?_⟩
          simpa using hx
        rw [List.isEmpty_iff] at h2
        rw [h2] at hmem2
        simp at hmem2
      split
      · simp
      · split
        · simp
        · next rest hrec =>
          intro h
          refine ih (done ++ NxDiGraph.kahnStep g done) ?_ rest hrec
          intro hmem
          rcases List.mem_append.mp hmem with h1 | h2
          · exact hx h1
          · exact hxlayer h2

/-- With nothing emitted yet, the first Kahn layer is exactly the
zero-in-degree vertex list. -/
theorem kahnStep_nil_eq_rootList (g : NxDiGraph) :
    NxDiGraph.kahnStep g [] = g.rootList := by
  unfold NxDiGraph.kahnStep NxDiGraph.rootList
  simp

/-- A successful `topological_generations` run on a nonempty DiGraph starts
with the zero-in-degree vertex list. -/
theorem topoGenerations_head {g : NxDiGraph} {gens : List (List Nat)}
    (hne : g.verts ≠ []) (h : g.topoGenerations = .ok gens) :
    ∃ rest, gens = g.rootList :: rest := by
  unfold NxDiGraph.topoGenerations at h
  obtain ⟨a, t, hvt⟩ : ∃ a t, g.verts = a :: t := by
    cases hv : g.verts with
    | nil => exact absurd hv hne
    | cons a t => exact ⟨a, t, rfl⟩
  have hlen : g.verts.length = t.length + 1 := by rw [hvt]; rfl
  rw [hlen] at h
  rw [NxDiGraph.kahnAux] at h
  have hall : (g.verts.all fun v => List.contains [] v) = false := by
    rw [hvt]; simp
  rw [hall] at h
  simp only [Bool.false_eq_true, if_false] at h
  rw [kahnStep_nil_eq_rootList] at h
  by_cases hre : g.rootList.isEmpty
  · rw [if_pos hre] at h; simp at h
  · rw [if_neg hre] at h
    cases hrec : NxDiGraph.kahnAux g ([] ++ g.rootList) t.length with
    | error e => rw [hrec] at h; simp at h
    | ok rest =>
      rw [hrec] at h
      simp only [Except.ok.injEq] at h
      exact ⟨rest, h.symm⟩

theorem bool_true_of_not_false {b : Bool} (h : ¬ b = false) : b = true := by
  cases b
  · exact absurd rfl h
  · rfl

theorem bool_false_of_not_true {b : Bool} (h : ¬ b = true) : b = false := by
  cases b
  · rfl
  · exact absurd rfl h

/-- A string key is never a member of the integer-keyed backing DiGraph, so
`valid_graph_node` accepts every node. -/
theorem valid_graph_node_eq_none (s : ConceptGraph) (n : ConceptNode) :
    s.valid_graph_node n = none := by
  unfold ConceptGraph.valid_graph_node
  have h1 : ∀ d, s.graph.memKey (.str d) = false := by
    intro d
    simp [NxDiGraph.memKey, pyKeyEq]
  simp [h1]

theorem add_node_eq (s : ConceptGraph) (n : ConceptNode) :
    s.add_node n =
      ({ s with graph := s.graph.add_node_attr n.id_networkx n,
                nodes := pySetInsertNode s.nodes n }, none) := by
  unfold ConceptGraph.add_node
  rw [valid_graph_node_eq_none]

theorem containsNode_id_mem {s : ConceptGraph} {n : ConceptNode}
    (h : s.containsNode n = true) : n.id_networkx ∈ s.graph.verts := by
  unfold ConceptGraph.containsNode at h
  rw [Bool.and_eq_true] at h
  exact mem_of_contains_true h.2

theorem valid_graph_edge_none_facts {L : Lexicon} {s : ConceptGraph} {e : ConceptEdge}
    (h : ConceptGraph.valid_graph_edge L s e = none) :
    s.containsNode e.source = true ∧ s.containsNode e.target = true ∧
    (s.graph.ancestorList e.target.id_networkx).contains e.source.id_networkx = false ∧
    (s.graph.ancestorList e.source.id_networkx).contains e.target.id_networkx = false := by
  unfold ConceptGraph.valid_graph_edge at h
  split at h
  · simp at h
  next h1 =>
    split at h
    · simp at h
    next h2 =>
      split at h
      · simp at h
      next h3 =>
        split at h
        · simp at h
        next h4 =>
          split at h
          · simp at h
          next h5 =>
            exact ⟨bool_true_of_not_false h1, bool_true_of_not_false h2,
              bool_false_of_not_true h4, bool_false_of_not_true h5⟩

theorem notMem_ancestorList {g : NxDiGraph} {u v : Nat}
    (hu : u ∈ g.verts) (h : (g.ancestorList v).contains u = false) :
    u = v ∨ g.reachesB u v = false := by
  by_cases he : u = v
  · exact Or.inl he
  · right
    cases hb : g.reachesB u v with
    | false => rfl
    | true =>
      exfalso
      have hmem : u ∈ g.ancestorList v := by
        refine List.mem_filter.mpr ⟨hu, ?_⟩
        simp [he, hb]
      rw [contains_true_of_mem hmem] at h
      exact Bool.noConfusion h

theorem add_edge_edges_of_mem {g : NxDiGraph} {u v : Nat} (h : (u, v) ∈ g.edges) :
    (g.add_edge u v).edges = g.edges := by
  simp [NxDiGraph.add_edge, h]

theorem add_edge_edges_of_not_mem {g : NxDiGraph} {u v : Nat} (h : (u, v) ∉ g.edges) :
    (g.add_edge u v).edges = g.edges ++ [(u, v)] := by
  have hc : g.edges.contains (u, v) = false := by
    cases hb : g.edges.contains (u, v) with
    | false => rfl
    | true => exact absurd (mem_of_contains_true hb) h
  simp [NxDiGraph.add_edge, h, hc]

theorem add_edge_mem_edges (g : NxDiGraph) (u v : Nat) :
    (u, v) ∈ (g.add_edge u v).edges := by
  by_cases h : (u, v) ∈ g.edges
  · rw [add_edge_edges_of_mem h]; exact h
  · rw [add_edge_edges_of_not_mem h]; simp

theorem mem_of_mem_condAppend {l : List Nat} {a x : Nat} (hx : x ∈ l) :
    x ∈ (if l.contains a then l else l ++ [a]) := by
  split
  · exact hx
  · exact List.mem_append.mpr (Or.inl hx)

theorem add_edge_mem_verts {g : NxDiGraph} (u v x : Nat) (hx : x ∈ g.verts) :
    x ∈ (g.add_edge u v).verts := by
  show x ∈ (if (if g.verts.contains u then g.verts else g.verts ++ [u]).contains v
      then (if g.verts.contains u then g.verts else g.verts ++ [u])
      else (if g.verts.contains u then g.verts else g.verts ++ [u]) ++ [v])
  exact mem_of_mem_condAppend (mem_of_mem_condAppend hx)

/-- Rolling back a provisional insertion of an absent edge between existing
vertices restores the DiGraph exactly. -/
theorem remove_add_edge {g : NxDiGraph} {u v : Nat}
    (hu : u ∈ g.verts) (hv : v ∈ g.verts) (hne : (u, v) ∉ g.edges) :
    (g.add_edge u v).remove_edge u v = g := by
  have hce : g.edges.contains (u, v) = false := by
    cases hb : g.edges.contains (u, v) with
    | false => rfl
    | true => exact absurd (mem_of_contains_true hb) hne
  have h1 : g.add_edge u v = { g with edges := g.edges ++ [(u, v)] } := by
    simp [NxDiGraph.add_edge, hu, hv, hne, hce]
  rw [h1]
  unfold NxDiGraph.remove_edge
  have h2 : (g.edges ++ [(u, v)]).filter (fun e => e != (u, v)) = g.edges := by
    rw [List.filter_append]
    have h3 : g.edges.filter (fun e => e != (u, v)) = g.edges := by
      apply List.filter_eq_self.mpr
      intro a ha
      have hane : a ≠ (u, v) := fun heq => hne (heq ▸ ha)
      simpa using hane
    have h4 : ([(u, v)] : List (Nat × Nat)).filter (fun e => e != (u, v)) = [] := by simp
    rw [h3, h4, List.append_nil]
  simp only []
  rw [h2]

theorem add_edge_ok_cases {L : Lexicon} {s s2 : ConceptGraph} {e : ConceptEdge}
    (h : ConceptGraph.add_edge L s e = (s2, none)) :
    ConceptGraph.valid_graph_edge L s e = none ∧
    ∃ gen0 rest,
      (s.graph.add_edge e.source.id_networkx e.target.id_networkx).topoGenerations
        = .ok (gen0 :: rest) ∧ gen0.length ≤ 1 ∧
      s2 = { s with graph := s.graph.add_edge e.source.id_networkx e.target.id_networkx,
                    edges := pySetInsertEdge s.edges e } := by
  unfold ConceptGraph.add_edge at h
  cases hval : ConceptGraph.valid_graph_edge L s e with
  | some err => rw [hval] at h; simp at h
  | none =>
    rw [hval] at h
    dsimp only at h
    refine ⟨rfl, ?_⟩
    cases htopo : (s.graph.add_edge e.source.id_networkx e.target.id_networkx).topoGenerations with
    | error u => rw [htopo] at h; simp at h
    | ok gens =>
      rw [htopo] at h
      cases gens with
      | nil => simp at h
      | cons gen0 rest =>
        dsimp only at h
        by_cases hlen : gen0.length > 1
        · rw [if_pos hlen] at h; simp at h
        · rw [if_neg hlen] at h
          have hs2 := (congrArg Prod.fst h).symm
          exact ⟨gen0, rest, rfl, Nat.le_of_not_lt hlen, hs2⟩

/-- Graph states reachable from a freshly constructed empty `ConceptGraph`
by successful `add_node` / `add_edge` calls. -/
inductive Reachable (L : Lexicon) : ConceptGraph → Prop
  | empty : Reachable L emptyCG
  | addNode (s : ConceptGraph) (n : ConceptNode) (s2 : ConceptGraph)
      (hs : Reachable L s) (h : ConceptGraph.add_node s n = (s2, none)) :
      Reachable L s2
  | addEdge (s : ConceptGraph) (e : ConceptEdge) (s2 : ConceptGraph)
      (hs : Reachable L s) (h : ConceptGraph.add_edge L s e = (s2, none)) :
      Reachable L s2

/-- Every reachable backing DiGraph is acyclic: `add_node` only adds
isolated vertices, and a successful `add_edge` passed the `nx.ancestors`
cycle test (a self-loop attempt cannot succeed because
`topological_generations` fails on it). -/
theorem reachable_graph_acyclic {L : Lexicon} {s : ConceptGraph}
    (h : Reachable L s) : s.graph.Acyclic := by
  induction h with
  | empty => exact acyclic_of_edges_nil rfl
  | addNode s n s2 hs heq ih =>
    rw [add_node_eq s n] at heq
    have hs2 : s2 = { s with graph := s.graph.add_node_attr n.id_networkx n,
                             nodes := pySetInsertNode s.nodes n } :=
      (congrArg Prod.fst heq).symm
    subst hs2
    exact acyclic_congr rfl ih
  | addEdge s e s2 hs heq ih =>
    obtain ⟨hval, gen0, rest, htopo, hlen, hs2⟩ := add_edge_ok_cases heq
    obtain ⟨hcs, hct, hred, hcyc⟩ := valid_graph_edge_none_facts hval
    subst hs2
    have hsv : e.source.id_networkx ∈ s.graph.verts := containsNode_id_mem hcs
    have htv : e.target.id_networkx ∈ s.graph.verts := containsNode_id_mem hct
    by_cases hts : e.target.id_networkx = e.source.id_networkx
    · exfalso
      have hmem : (e.source.id_networkx, e.source.id_networkx) ∈
          (s.graph.add_edge e.source.id_networkx e.target.id_networkx).edges := by
        rw [hts]
        exact add_edge_mem_edges _ _ _
      have hvm : e.source.id_networkx ∈
          (s.graph.add_edge e.source.id_networkx e.target.id_networkx).verts :=
        add_edge_mem_verts _ _ _ hsv
      unfold NxDiGraph.topoGenerations at htopo
      exact kahnAux_ne_ok_of_selfloop hvm hmem _ [] (by simp) (gen0 :: rest) htopo
    · rcases notMem_ancestorList htv hcyc with heq2 | hreach
      · exact absurd heq2 hts
      · by_cases hmem : (e.source.id_networkx, e.target.id_networkx) ∈ s.graph.edges
        · exact acyclic_congr (add_edge_edges_of_mem hmem).symm ih
        · have hntg : ¬ Relation.TransGen (stepRel s.graph.edges)
              e.target.id_networkx e.source.id_networkx := by
            intro htg
            have hcomp := reach_complete htg
            rw [NxDiGraph.reachesB] at hreach
            rw [hcomp] at hreach
            exact Bool.noConfusion hreach
          have hnrtg : ¬ Relation.ReflTransGen (stepRel s.graph.edges)
              e.target.id_networkx e.source.id_networkx := by
            intro hrtg
            rcases Relation.reflTransGen_iff_eq_or_transGen.mp hrtg with heq3 | htg
            · exact hts heq3.symm
            · exact hntg htg
          intro v hv
          refine acyclic_insert ih hnrtg v ?_
          rwa [add_edge_edges_of_not_mem hmem] at hv

/-- After a successful `add_edge` the backing DiGraph has at most one
zero-in-degree vertex: the committed state passed the first-generation
check. -/
theorem add_edge_ok_rootList {L : Lexicon} {s s2 : ConceptGraph} {e : ConceptEdge}
    (h : ConceptGraph.add_edge L s e = (s2, none)) :
    s2.graph.rootList.length ≤ 1 := by
  obtain ⟨hval, gen0, rest, htopo, hlen, hs2⟩ := add_edge_ok_cases h
  obtain ⟨hcs, hct, hred, hcyc⟩ := valid_graph_edge_none_facts hval
  have hsv : e.source.id_networkx ∈ s.graph.verts := containsNode_id_mem hcs
  have hvm : e.source.id_networkx ∈
      (s.graph.add_edge e.source.id_networkx e.target.id_networkx).verts :=
    add_edge_mem_verts _ _ _ hsv
  obtain ⟨rest2, hgens⟩ := topoGenerations_head (List.ne_nil_of_mem hvm) htopo
  have hg0 : gen0 = (s.graph.add_edge e.source.id_networkx e.target.id_networkx).rootList := by
    exact (List.cons.injEq _ _ _ _ ▸ hgens).1
  subst hs2
  show (s.graph.add_edge e.source.id_networkx e.target.id_networkx).rootList.length ≤ 1
  rw [← hg0]
  exact hlen

/-- If `add_edge` reaches the `multipleRoots` rollback, the provisional edge
was absent beforehand (a present edge either trips the `redundantEdge`
ancestor check or, as a self-loop, makes `topological_generations` raise
instead). -/
theorem add_edge_fail_state {L : Lexicon} {s s2 : ConceptGraph} {e : ConceptEdge}
    {err : PyErr} (h : ConceptGraph.add_edge L s e = (s2, some err)) :
    (∃ verr, ConceptGraph.valid_graph_edge L s e = some verr ∧ verr = err ∧ s2 = s) ∨
    (ConceptGraph.valid_graph_edge L s e = none ∧
      (err = .networkxUnfeasible ∨ err = .indexError) ∧
      s2 = { s with graph := s.graph.add_edge e.source.id_networkx e.target.id_networkx }) ∨
    (ConceptGraph.valid_graph_edge L s e = none ∧ err = .multipleRoots ∧
      s2 = { s with graph := ((s.graph.add_edge e.source.id_networkx
                e.target.id_networkx).remove_edge e.source.id_networkx e.target.id_networkx) }) := by
  unfold ConceptGraph.add_edge at h
  cases hval : ConceptGraph.valid_graph_edge L s e with
  | some verr =>
    rw [hval] at h
    dsimp only at h
    rw [Prod.mk.injEq] at h
    exact Or.inl ⟨verr, rfl, Option.some.injEq _ _ ▸ h.2, h.1.symm⟩
  | none =>
    rw [hval] at h
    dsimp only at h
    cases htopo : (s.graph.add_edge e.source.id_networkx e.target.id_networkx).topoGenerations with
    | error u =>
      rw [htopo] at h
      dsimp only at h
      rw [Prod.mk.injEq] at h
      refine Or.inr (Or.inl ⟨rfl, Or.inl (Option.some.injEq _ _ ▸ h.2).symm, h.1.symm⟩)
    | ok gens =>
      rw [htopo] at h
      cases gens with
      | nil =>
        dsimp only at h
        rw [Prod.mk.injEq] at h
        exact Or.inr (Or.inl ⟨rfl, Or.inr (Option.some.injEq _ _ ▸ h.2).symm, h.1.symm⟩)
      | cons gen0 rest =>
        dsimp only at h
        by_cases hlen : gen0.length > 1
        · rw [if_pos hlen] at h
          rw [Prod.mk.injEq] at h
          exact Or.inr (Or.inr ⟨rfl, (Option.some.injEq _ _ ▸ h.2).symm, h.1.symm⟩)
        · rw [if_neg hlen] at h
          rw [Prod.mk.injEq] at h
          exact absurd h.2 (by simp)

/-- In the `multipleRoots` case the provisional edge was genuinely new, so
the rollback restores the DiGraph exactly. -/
theorem multipleRoots_not_mem {L : Lexicon} {s s2 : ConceptGraph} {e : ConceptEdge}
    (h : ConceptGraph.add_edge L s e = (s2, some .multipleRoots))
    (hval : ConceptGraph.valid_graph_edge L s e = none) :
    (e.source.id_networkx, e.target.id_networkx) ∉ s.graph.edges := by
  intro hmem
  obtain ⟨hcs, hct, hred, hcyc⟩ := valid_graph_edge_none_facts hval
  have hsv : e.source.id_networkx ∈ s.graph.verts := containsNode_id_mem hcs
  by_cases hts : e.source.id_networkx = e.target.id_networkx
  · -- a present self-loop: `topological_generations` raises, so the result
    -- error cannot be `multipleRoots`
    unfold ConceptGraph.add_edge at h
    rw [hval] at h
    dsimp only at h
    have hmem2 : (e.source.id_networkx, e.source.id_networkx) ∈
        (s.graph.add_edge e.source.id_networkx e.target.id_networkx).edges := by
      rw [← hts] at hmem ⊢
      rw [add_edge_edges_of_mem hmem]
      exact hmem
    have hvm : e.source.id_networkx ∈
        (s.graph.add_edge e.source.id_networkx e.target.id_networkx).verts :=
      add_edge_mem_verts _ _ _ hsv
    cases htopo : (s.graph.add_edge e.source.id_networkx e.target.id_networkx).topoGenerations with
    | error u =>
      rw [htopo] at h
      dsimp only at h
      rw [Prod.mk.injEq] at h
      have := h.2
      simp at this
    | ok gens =>
      unfold NxDiGraph.topoGenerations at htopo
      exact kahnAux_ne_ok_of_selfloop hvm hmem2 _ [] (by simp) gens htopo
  · -- a present non-loop edge is a one-step path source → target, so the
    -- `redundantEdge` ancestor check would have fired
    have hr : s.graph.reachesB e.source.id_networkx e.target.id_networkx = true :=
      reachFuel_of_mem hmem
    have hmemanc : e.source.id_networkx ∈ s.graph.ancestorList e.target.id_networkx := by
      refine List.mem_filter.mpr ⟨hsv, ?_⟩
      simp [hts, hr]
    rw [contains_true_of_mem hmemanc] at hred
    exact Bool.noConfusion hred

/-!  ## Additional concrete fixtures for the claims -/

/-- A second node value-equal to nothing in `cgE`, but carrying the same
label and sense as `nodeEntity` (allocated later, id 5). -/
def nodeEntityClone : ConceptNode := ⟨5, ["entity"], "entity.n.01"⟩

/-- A graph holding only `nodeDog`. -/
def cgDog : ConceptGraph := (ConceptGraph.add_node emptyCG nodeDog).1

/-- Four isolated nodes: entity, animal, dog, plant. -/
def cg4 : ConceptGraph :=
  (ConceptGraph.add_node (ConceptGraph.add_node cgEA nodeDog).1 nodePlant).1

/-- The animal→dog relation. -/
def edgeAD : ConceptEdge := ⟨nodeAnimal, nodeDog, none⟩

/-- A self-loop relation on `nodeEntity`. -/
def edgeSelfLoop : ConceptEdge := ⟨nodeEntity, nodeEntity, none⟩

/-- The node `from_descriptor` builds for "rock" when the counter is 2. -/
def rockNode : ConceptNode := ⟨2, ["rock"], "rock.n.01"⟩

/-!  ## The claims -/

/-- Claim C1 (code_bug evaluation): the spec says `addNode` of a Concept
sharing a label or canonical sense with a present node fails with
`DuplicateLabel`/`DuplicateSense` and leaves the graph unchanged.  In the
code both uniqueness checks test string membership in the integer-keyed
backing DiGraph (the lines are marked "NEEDS `__contains__`"), which is
always false, so `add_node` never fails: here a node with the same label
and sense as the present `nodeEntity` is accepted and the node count grows
to 2. -/
theorem claim_C1_duplicate_node_accepted :
    (∀ (s : ConceptGraph) (n : ConceptNode), (ConceptGraph.add_node s n).2 = none) ∧
    (ConceptGraph.add_node cgE nodeEntityClone).2 = none ∧
    (ConceptGraph.add_node cgE nodeEntityClone).1.nodes.length = 2 := by
  refine ⟨?_, rfl, rfl⟩
  intro s n
  rw [add_node_eq]

/-- Claim C2 (amended): every state reachable from the empty `ConceptGraph`
by successful `add_node`/`add_edge` calls has an acyclic backing DiGraph,
and immediately after every successful `add_edge` the backing DiGraph has
at most one zero-in-degree vertex.  (The original claim's "at most one
zero-in-degree node" in every reachable state fails: `add_node` adds
isolated roots, see the counterexample.) -/
theorem claim_C2_invariant (L : Lexicon) (s : ConceptGraph) (h : Reachable L s) :
    s.graph.Acyclic ∧
      ∀ (e : ConceptEdge) (s2 : ConceptGraph),
        ConceptGraph.add_edge L s e = (s2, none) → s2.graph.rootList.length ≤ 1 :=
  ⟨reachable_graph_acyclic h, fun _ _ he => add_edge_ok_rootList he⟩

/-- Claim C2, counterexample to the claim as stated: the state reached by
adding the two nodes `nodeEntity` and `nodeAnimal` (no edges) is reachable,
yet its backing DiGraph has two zero-in-degree vertices. -/
theorem claim_C2_counterexample :
    Reachable wnFix cgEA ∧
      ¬ (cgEA.graph.Acyclic ∧ cgEA.graph.rootList.length ≤ 1) := by
  constructor
  · exact Reachable.addNode cgE nodeAnimal cgEA
      (Reachable.addNode emptyCG nodeEntity cgE Reachable.empty rfl) rfl
  · intro hcon
    have h2 := hcon.2
    revert h2
    decide

/-- Claim C2, witness: the two-node reachable state `cgEA` is acyclic, and
committing the entity→animal edge leaves a single root. -/
theorem claim_C2_invariant_witness :
    cgEA.graph.Acyclic ∧ cgEAe.graph.rootList.length ≤ 1 := by
  have hr : Reachable wnFix cgEA :=
    Reachable.addNode cgE nodeAnimal cgEA
      (Reachable.addNode emptyCG nodeEntity cgE Reachable.empty rfl) rfl
  exact ⟨(claim_C2_invariant wnFix cgEA hr).1,
    (claim_C2_invariant wnFix cgEA hr).2 edgeEA cgEAe rfl⟩

/-- Claim C3 (amended): whenever `add_edge` fails with one of the five
listed validation errors (`NodeNotFound` on either endpoint,
`NotAHypernym`, `RedundantEdge`, `CycleDetected`, `MultipleRoots`), the
graph — node set, edge set and backing DiGraph — is exactly the pre-call
state; in particular the provisional `MultipleRoots` insertion is rolled
back.  (The claim as stated, covering every failure, is false: a self-loop
relation fails with the `NetworkXUnfeasible` escaping from
`topological_generations` and leaves the provisional edge inserted — see
the counterexample.) -/
theorem claim_C3_rollback (L : Lexicon) (s s2 : ConceptGraph) (e : ConceptEdge)
    (err : PyErr) (h : ConceptGraph.add_edge L s e = (s2, some err))
    (herr : err = .nodeNotFoundSource ∨ err = .nodeNotFoundTarget ∨ err = .notAHypernym ∨
      err = .redundantEdge ∨ err = .cycleDetected ∨ err = .multipleRoots) :
    s2 = s := by
  rcases add_edge_fail_state h with ⟨verr, hval, hverr, hs2⟩ | ⟨hval, herr2, hs2⟩ |
    ⟨hval, herr2, hs2⟩
  · exact hs2
  · exfalso
    rcases herr2 with rfl | rfl <;> rcases herr with h1 | h1 | h1 | h1 | h1 | h1 <;> simp at h1
  · rw [herr2] at h
    obtain ⟨hcs, hct, hred, hcyc⟩ := valid_graph_edge_none_facts hval
    have hnm := multipleRoots_not_mem h hval
    rw [hs2, remove_add_edge (containsNode_id_mem hcs) (containsNode_id_mem hct) hnm]

/-- Claim C3, counterexample to the claim as stated: `add_edge` of a
self-loop on the graph member `nodeEntity` fails (the cycle makes
`topological_generations` raise before the rollback line) and the failing
call has mutated the backing DiGraph. -/
theorem claim_C3_counterexample :
    (ConceptGraph.add_edge wnFix cgE edgeSelfLoop).2 = some PyErr.networkxUnfeasible ∧
    (ConceptGraph.add_edge wnFix cgE edgeSelfLoop).1 ≠ cgE := by
  exact ⟨rfl, by decide⟩

/-- Claim C3, witness: on four isolated nodes, adding animal→dog trips the
`MultipleRoots` check; the rollback leaves the state exactly `cg4`. -/
theorem claim_C3_rollback_witness :
    ConceptGraph.add_edge wnFix cg4 edgeAD = (cg4, some PyErr.multipleRoots) ∧ cg4 = cg4 := by
  refine ⟨by decide, ?_⟩
  exact claim_C3_rollback wnFix cg4 cg4 edgeAD PyErr.multipleRoots (by decide)
    (Or.inr (Or.inr (Or.inr (Or.inr (Or.inr rfl)))))

/-- Claim C4 (code_bug evaluation): the spec's Relation equality is full
three-way equality of source, target and label — two label-less Relations
with different endpoints are not equal.  The code's `__eq__` parses as
`(...) if self.label is not None else True`, so whenever the left operand
has `label = None` it returns `True`: here two relations with disjoint,
value-unequal endpoints compare equal. -/
theorem claim_C4_label_none_collapses_eq :
    ConceptEdge.pyEq edgeEA ⟨nodeDog, nodePlant, none⟩ = true ∧
    ConceptNode.pyEq nodeEntity nodeDog = false ∧
    ConceptNode.pyEq nodeAnimal nodePlant = false := by
  exact ⟨rfl, rfl, rfl⟩

/-- Claim C5 (code_bug evaluation): the spec keys node-set membership on
full value equality (labels + canonical sense), independent of ids.  The
code hashes Concepts by `id_networkx` while comparing by value, so a Python
set lookup never reaches a value-equal node stored under a different id:
`nodeDogClone` is value-equal to the stored `nodeDog` yet is not a member
of `cgDog`'s node set, and `__contains__` answers `False`. -/
theorem claim_C5_membership_keyed_by_id_hash :
    ConceptNode.pyEq nodeDog nodeDogClone = true ∧
    pySetMemNode cgDog.nodes nodeDogClone = false ∧
    ConceptGraph.containsOp cgDog (.node nodeDogClone) = .ok false := by
  exact ⟨rfl, rfl, rfl⟩

/-- Claim C6 (code_bug evaluation): the spec says `addDescriptorToNode` on
a graph member does not fail with `NodeNotFound`.  The code's guard is
`target_node not in self.graph` — membership of the Concept object among
the integer keys of the backing DiGraph — which no node ever passes, so
the method raises `NodeNotFound` for every input, members included
(`nodeEntity` is a member of `cgE` by the graph's own `__contains__`). -/
theorem claim_C6_member_still_not_found :
    (∀ (L : Lexicon) (s : ConceptGraph) (d : String) (n : ConceptNode),
      ConceptGraph.add_descriptor_to_node L s d n = (s, some PyErr.nodeNotFound)) ∧
    ConceptGraph.containsOp cgE (.node nodeEntity) = .ok true := by
  refine ⟨?_, rfl⟩
  intro L s d n
  unfold ConceptGraph.add_descriptor_to_node
  have hm : s.graph.memKey (.node n) = false := by
    simp [NxDiGraph.memKey, pyKeyEq]
  simp [hm]

/-- Claim C7 (code_bug evaluation): the spec says a failing inner `addEdge`
in `addDescriptorAsNewNode` must not leave the new Concept behind.  The
`add_node`/`add_edge` calls sit in the `else:` block outside the `try`, so
when `add_node` succeeds and `add_edge` then fails (here: "rock" resolves,
but `entity.n.01` is not on rock's hypernym path, so `NotAHypernym`), the
freshly created node stays in the node set and the backing DiGraph. -/
theorem claim_C7_orphan_node_left_behind :
    (ConceptGraph.add_descriptor_as_new_node wnFix cgE "rock" nodeEntity 2).2.2
      = some PyErr.notAHypernym ∧
    pySetMemNode (ConceptGraph.add_descriptor_as_new_node wnFix cgE "rock" nodeEntity 2).1.nodes
      rockNode = true ∧
    (ConceptGraph.add_descriptor_as_new_node wnFix cgE "rock" nodeEntity 2).1.graph.verts.contains
      rockNode.id_networkx = true := by
  exact ⟨rfl, rfl, rfl⟩

/-- Claim C8 (code_bug evaluation): `addLabel` is a no-op for a present
label and fails with `NotSynonymous` for a non-synonym, as the spec says —
but in the remaining case, instead of appending, the code calls
`self.descriptors.add(...)` on a `list` (its own comment notes
`descriptors` is a list) and raises `AttributeError`, leaving the label
set unchanged: appending a genuine synonym ("creature" for `animal.n.01`)
never succeeds. -/
theorem claim_C8_add_descriptor_branches :
    ConceptNode.add_descriptor wnFix nodeAnimal "animal" = (nodeAnimal, none) ∧
    ConceptNode.add_descriptor wnFix nodeAnimal "rock"
      = (nodeAnimal, some PyErr.notSynonymous) ∧
    ConceptNode.add_descriptor wnFix nodeAnimal "creature"
      = (nodeAnimal, some PyErr.attributeError) := by
  exact ⟨rfl, rfl, rfl⟩

/-- Claim C9 (code_bug evaluation): the spec's `contains` on a string
returns a boolean and never raises.  Both string branches of the code call
attributes (`synset_name()`, `descriptors()`) that `networkx`'s `NodeView`
does not have, so every string query raises `AttributeError`. -/
theorem claim_C9_contains_string_always_raises :
    (∀ (s : ConceptGraph) (v : String),
        ConceptGraph.containsOp s (.str v) = .error PyErr.attributeError) ∧
    ConceptGraph.containsOp cgE (.str "entity") = .error PyErr.attributeError ∧
    ConceptGraph.containsOp cgE (.str "entity.n.01") = .error PyErr.attributeError := by
  have hgen : ∀ (s : ConceptGraph) (v : String),
      ConceptGraph.containsOp s (.str v) = .error PyErr.attributeError := by
    intro s v
    cases h : ((v.splitOn ".").length == 3) with
    | true => simp [ConceptGraph.containsOp, h]
    | false => simp [ConceptGraph.containsOp, h]
  exact ⟨hgen, hgen cgE "entity", hgen cgE "entity.n.01"⟩

theorem pySetMemNode_insert_self (s : List ConceptNode) (c : ConceptNode) :
    pySetMemNode (pySetInsertNode s c) c = true := by
  unfold pySetInsertNode
  by_cases h : pySetMemNode s c = true
  · rw [if_pos h]; exact h
  · rw [if_neg h]
    unfold pySetMemNode
    rw [List.any_append]
    have h2 : ([c].any fun x => x.pyHash == c.pyHash && x.pyEq c) = true := by
      simp [ConceptNode.pyEq, ConceptNode.pyHash]
    rw [h2, Bool.or_true]

theorem add_node_attr_contains_self (g : NxDiGraph) (i : Nat) (a : ConceptNode) :
    (g.add_node_attr i a).verts.contains i = true := by
  show (if g.verts.contains i then g.verts else g.verts ++ [i]).contains i = true
  by_cases h : g.verts.contains i = true
  · rw [if_pos h]; exact h
  · rw [if_neg h]
    exact contains_true_of_mem (by simp)

/-- The first `ConceptGraph()` call (all three defaults). -/
def firstDefaultGraph : ConceptGraphObj := ConceptGraph.pyInitDefault

/-- The second `ConceptGraph()` call: the default-argument objects were
evaluated once at class-definition time, so this call binds the very same
`nodes` set, `edges` set and DiGraph. -/
def secondDefaultGraph : ConceptGraphObj := ConceptGraph.pyInitDefault

/-- Claim C10: two `ConceptGraph`s constructed with no arguments share the
same `nodes` set, `edges` set and backing DiGraph (the constructor's
defaults are shared mutable objects): after a successful `add_node c`
through the first graph, `c in g` on the second graph answers `True`. -/
theorem claim_C10_shared_default_arguments (c : ConceptNode) (σ : Store)
    (h : (firstDefaultGraph.add_node c σ).2 = none) :
    firstDefaultGraph = secondDefaultGraph ∧
    secondDefaultGraph.containsOp (.node c) (firstDefaultGraph.add_node c σ).1 = .ok true := by
  refine ⟨rfl, ?_⟩
  unfold ConceptGraphObj.containsOp ConceptGraphObj.add_node ConceptGraphObj.writeBack
    ConceptGraphObj.deref firstDefaultGraph secondDefaultGraph ConceptGraph.pyInitDefault
  rw [add_node_eq]
  simp only [setCell, if_pos]
  show Except.ok (pySetMemNode (pySetInsertNode (σ.nodeCells 0) c) c &&
      ((σ.graphCells 0).add_node_attr c.id_networkx c).verts.contains c.id_networkx)
    = Except.ok true
  rw [pySetMemNode_insert_self, add_node_attr_contains_self]
  rfl

/-- Claim C10, witness: adding `nodeEntity` through the first default
graph on the start-up store succeeds, and the second default graph then
contains it. -/
theorem claim_C10_shared_default_arguments_witness :
    (firstDefaultGraph.add_node nodeEntity Store.initial).2 = none ∧
    firstDefaultGraph = secondDefaultGraph ∧
    secondDefaultGraph.containsOp (.node nodeEntity)
      (firstDefaultGraph.add_node nodeEntity Store.initial).1 = .ok true :=
  ⟨rfl, (claim_C10_shared_default_arguments nodeEntity Store.initial rfl).1,
    (claim_C10_shared_default_arguments nodeEntity Store.initial rfl).2⟩
